import Mathlib

/-!
Shallow embedding of `src/secamiz0r.c` (the secamiz0r frei0r video filter)
together with proofs about it.

Modelling conventions:
* C `int` arithmetic is modelled by `ℤ`; every quantity manipulated by the
  pipeline stays far away from the 32-bit boundaries, with the exception of
  the xorshift mixer `juice`, which is not modelled at all: each scan of a
  row consumes one fresh `rand()` value per iteration (obtained in the C
  code by repeated `juice` mixing), and those drawn values are abstracted
  as an arbitrary integer stream `ℕ → ℤ`.  All claims about randomness
  quantify over such streams.
* C `double`/`float` arithmetic is modelled by exact rational arithmetic on
  `ℚ`.  The decimal constants of the C source are taken at their literal
  (decimal) value.  A C cast from a floating-point value to an integer type
  truncates toward zero and is modelled by `cTrunc`; C integer division and
  remainder (`/`, `%`) truncate toward zero and are modelled by `Int.tdiv`
  and `Int.tmod`.
* Pixel buffers are total functions from a pixel index to a pixel (four
  8-bit channels, each modelled as `ℕ`).  The loop bounds of the C code are
  carried over literally; which buffer cells a loop touches is additionally
  described by explicit access-index lists so that in-bounds (and
  out-of-bounds) behaviour can be stated.
-/

namespace Secamiz0r

/-- C helper `clamp_int`: limit an integer value to the range `[a, b]`. -/
def clamp_int (value a b : ℤ) : ℤ :=
  if value < a then a else if value > b then b else value

/-- C helper `clamp_byte`: limit an integer value to the 8-bit range. -/
def clamp_byte (value : ℤ) : ℕ :=
  (clamp_int value 0 255).toNat

/-- Truncation toward zero: the semantics of a C cast from a
floating-point value to an integer type (`(int) x`, `(uint8_t) x`). -/
def cTrunc (q : ℚ) : ℤ :=
  if 0 ≤ q then ⌊q⌋ else ⌈q⌉

/-- C helper `umod`: `((a % b) + b) % b` with C (truncated) `%`. -/
def umod (a b : ℤ) : ℤ :=
  ((a.tmod b) + b).tmod b

/-- One RGBA pixel: four 8-bit channels.  During the pipeline channel 0
holds luma, channel 1 chroma, channel 2 the transient spark mark and
channel 3 alpha. -/
structure Pix where
  c0 : ℕ
  c1 : ℕ
  c2 : ℕ
  c3 : ℕ
deriving DecidableEq, Repr

/-- A pixel row, addressed by column index.  The C code addresses the
byte array `row[i * 4 + k]`; here `row i` is the pixel at column `i`. -/
def Row : Type := ℕ → Pix

/-- Write one pixel of a row (the C assignment `row[i * 4 + k] = ...`,
for all four channels at once). -/
def setPix (row : Row) (i : ℕ) (p : Pix) : Row :=
  fun j => if j = i then p else row j

/-- The `secamiz0r` instance struct. -/
structure secamiz0r where
  width : ℕ
  height : ℕ
  frame_count : ℕ
  fire_intensity : ℚ
  fire_threshold : ℤ
  fire_seed : ℤ
  noise_intensity : ℚ
  luma_noise : ℤ
  chroma_noise : ℤ
  echo_offset : ℤ
deriving DecidableEq

/-- C `set_fire_intensity`: store the parameter and recompute the derived
fields `fire_threshold = 1024 - (int)(x*x*256.0)` and
`fire_seed = (int)(x*1024.0)`. -/
def set_fire_intensity (s : secamiz0r) (x : ℚ) : secamiz0r :=
  { s with
    fire_intensity := x
    fire_threshold := 1024 - cTrunc (x * x * 256)
    fire_seed := cTrunc (x * 1024) }

/-- C `set_noise_intensity`: store the parameter and recompute the derived
fields `luma_noise = clamp_int((int)(x*x*256.0), 16, 224)`,
`chroma_noise = clamp_int((int)(x*256.0), 32, 256)` and
`echo_offset = clamp_int((int)(x*8.0), 2, 16)`. -/
def set_noise_intensity (s : secamiz0r) (x : ℚ) : secamiz0r :=
  { s with
    noise_intensity := x
    luma_noise := clamp_int (cTrunc (x * x * 256)) 16 224
    chroma_noise := clamp_int (cTrunc (x * 256)) 32 256
    echo_offset := clamp_int (cTrunc (x * 8)) 2 16 }

/-- C `f0r_construct`: initialise the instance for a frame size and apply
both setters with the default parameter value `0.125` (the allocation
itself always succeeds in the model). -/
def f0r_construct (width height : ℕ) : secamiz0r :=
  set_noise_intensity
    (set_fire_intensity
      { width := width
        height := height
        frame_count := 0
        fire_intensity := 0
        fire_threshold := 0
        fire_seed := 0
        noise_intensity := 0
        luma_noise := 0
        chroma_noise := 0
        echo_offset := 0 } 0.125) 0.125

/-- Guard of the luma-noise branch of `filter_pair`:
`if (self->luma_noise > 0)`. -/
abbrev lumaNoiseGuard (s : secamiz0r) : Prop := 0 < s.luma_noise

/-- Guard of the chroma-noise branch of `filter_pair`:
`if (self->chroma_noise > 0)`. -/
abbrev chromaNoiseGuard (s : secamiz0r) : Prop := 0 < s.chroma_noise

/-- Guard of the echo branch of `filter_pair` at column `i`:
`if (self->echo_offset >= 1 && i >= self->echo_offset)`. -/
abbrev echoGuard (s : secamiz0r) (i : ℕ) : Prop :=
  1 ≤ s.echo_offset ∧ s.echo_offset ≤ (i : ℤ)

/-- C `unpack_rgb`: convert the three colour channels of a pixel to
normalized values (`src[k] / 255.f`). -/
def unpack_rgb (p : Pix) : ℚ × ℚ × ℚ :=
  ((p.c0 : ℚ) / 255, (p.c1 : ℚ) / 255, (p.c2 : ℚ) / 255)

/-- C `y_from_rgb`: `(uint8_t)(16.0 + 65.7380*r + 129.057*g + 25.0640*b)`.
For normalized inputs the value is nonnegative, so the cast truncates
toward zero. -/
def y_from_rgb (rgb : ℚ × ℚ × ℚ) : ℕ :=
  (cTrunc (16 + 65.7380 * rgb.1 + 129.057 * rgb.2.1 + 25.0640 * rgb.2.2)).toNat

/-- C `u_from_rgb`: `(uint8_t)(128.0 - 37.9450*r - 74.4940*g + 112.439*b)`. -/
def u_from_rgb (rgb : ℚ × ℚ × ℚ) : ℕ :=
  (cTrunc (128 - 37.9450 * rgb.1 - 74.4940 * rgb.2.1 + 112.439 * rgb.2.2)).toNat

/-- C `v_from_rgb`: `(uint8_t)(128.0 + 112.439*r - 94.1540*g - 18.2850*b)`. -/
def v_from_rgb (rgb : ℚ × ℚ × ℚ) : ℕ :=
  (cTrunc (128 + 112.439 * rgb.1 - 94.1540 * rgb.2.1 - 18.2850 * rgb.2.2)).toNat

/-- C `rgb_from_yuv`: write the three colour channels computed from
normalized YUV values into a pixel; each channel value is cast to `int`
(truncation toward zero) and clamped to `[0, 255]`; the fourth channel of
the pixel is not written. -/
def rgb_from_yuv (p : Pix) (y u v : ℚ) : Pix :=
  ⟨clamp_byte (cTrunc (298.082 * y + 408.583 * v - 222.921)),
   clamp_byte (cTrunc (298.082 * y - 100.291 * u - 208.120 * v + 135.576)),
   clamp_byte (cTrunc (298.082 * y + 516.412 * u - 276.836)),
   p.c3⟩

/-- Average of two normalized RGB triples (the 2-pixel block average
`rgb_even` / `rgb_odd` computed by the encoder). -/
def avg_rgb (a b : ℚ × ℚ × ℚ) : ℚ × ℚ × ℚ :=
  ((a.1 + b.1) / 2, (a.2.1 + b.2.1) / 2, (a.2.2 + b.2.2) / 2)

/-- Column indices at which the encoder loop
`for (i = 0; i < width; i += 2)` starts a 2-pixel block. -/
def blockStarts (w : ℕ) : List ℕ :=
  (List.range ((w + 1) / 2)).map (fun k => 2 * k)

/-- One iteration of the encoder loop of `copy_pair_as_yuv`, for the block
starting at column `i`: per-pixel luma into channel 0, the shared `v` of
the even row and shared `u` of the odd row into channel 1, zero into
channel 2 and the source alpha into channel 3, for columns `i` and
`i + 1` of both rows. -/
def encodeBlock (src_even src_odd : Row) (d : Row × Row) (i : ℕ) : Row × Row :=
  let rgb0_even := unpack_rgb (src_even i)
  let rgb1_even := unpack_rgb (src_even (i + 1))
  let rgb0_odd := unpack_rgb (src_odd i)
  let rgb1_odd := unpack_rgb (src_odd (i + 1))
  let rgb_even := avg_rgb rgb0_even rgb1_even
  let rgb_odd := avg_rgb rgb0_odd rgb1_odd
  let u := u_from_rgb rgb_odd
  let v := v_from_rgb rgb_even
  let de := setPix (setPix d.1 i ⟨y_from_rgb rgb0_even, v, 0, (src_even i).c3⟩)
      (i + 1) ⟨y_from_rgb rgb1_even, v, 0, (src_even (i + 1)).c3⟩
  let dd := setPix (setPix d.2 i ⟨y_from_rgb rgb0_odd, u, 0, (src_odd i).c3⟩)
      (i + 1) ⟨y_from_rgb rgb1_odd, u, 0, (src_odd (i + 1)).c3⟩
  (de, dd)

/-- C `copy_pair_as_yuv` (Stage 1): encode two source rows into the two
destination rows, two pixels at a time. -/
def copy_pair_as_yuv (s : secamiz0r) (dst_even dst_odd : Row) (src_even src_odd : Row) :
    Row × Row :=
  (blockStarts s.width).foldl (encodeBlock src_even src_odd) (dst_even, dst_odd)

/-- State carried by the loop of `prefilter_pair`: the two oscillation
accumulators and the two rows being marked. -/
structure PreSt where
  oscE : ℤ
  oscO : ℤ
  rowE : Row
  rowO : Row

/-- One iteration of the loop of `prefilter_pair` at column `i ≥ 1`.  The
stream value consumed at this iteration is `rE (i-1)` / `rO (i-1)` (the C
code advances its `rand()` value by `juice` at the end of each iteration,
and the initial value is also the one used at `i = 1`).  The accumulator
is raised by `|luma(i) - luma(i-1) - umod(r, 512)|`, the pixel is marked
in channel 2 with `umod(r, 80)` if the raised accumulator exceeds
`fire_threshold`, and the accumulator is then halved (C integer division). -/
def prefilterStep (s : secamiz0r) (rE rO : ℕ → ℤ) (st : PreSt) (i : ℕ) : PreSt :=
  let oe := st.oscE + |((st.rowE i).c0 : ℤ) - ((st.rowE (i - 1)).c0 : ℤ) - umod (rE (i - 1)) 512|
  let oo := st.oscO + |((st.rowO i).c0 : ℤ) - ((st.rowO (i - 1)).c0 : ℤ) - umod (rO (i - 1)) 512|
  { oscE := oe.tdiv 2
    oscO := oo.tdiv 2
    rowE := if s.fire_threshold < oe then
        setPix st.rowE i { st.rowE i with c2 := (umod (rE (i - 1)) 80).toNat }
      else st.rowE
    rowO := if s.fire_threshold < oo then
        setPix st.rowO i { st.rowO i with c2 := (umod (rO (i - 1)) 80).toNat }
      else st.rowO }

/-- C `prefilter_pair` (Stage 2.1): the instability detector.  Each row
scan starts from an oscillation accumulator `umod(r, fire_seed)` (or `0`
when `fire_seed` is zero) and walks columns `1 .. width-1`. -/
def prefilter_pair (s : secamiz0r) (rE rO : ℕ → ℤ) (even odd : Row) : Row × Row :=
  let initE : ℤ := if s.fire_seed = 0 then 0 else umod (rE 0) s.fire_seed
  let initO : ℤ := if s.fire_seed = 0 then 0 else umod (rO 0) s.fire_seed
  let fin := (List.range' 1 (s.width - 1)).foldl (prefilterStep s rE rO)
    ⟨initE, initO, even, odd⟩
  (fin.rowE, fin.rowO)

/-- State carried by the loop of `filter_pair`: fire run lengths and signs
for both chroma axes, and the two rows being rewritten. -/
structure FilSt where
  u_fire : ℤ
  u_fire_sign : ℤ
  v_fire : ℤ
  v_fire_sign : ℤ
  rowE : Row
  rowO : Row

/-- C constant `fire_fade` of `filter_pair`. -/
def fire_fade : ℤ := 1

/-- One iteration of the loop of `filter_pair` at column `i`; the stream
values consumed are `rE i` and `rO i`.  In source order: apply an active
fire run to the chroma value and fade it; retrigger the run from a
channel-2 spark; add luma noise (`r % luma_noise`, C truncated `%`); scale
chroma and add chroma noise; apply the echo tap; clamp and write back
channels 0 and 1 of both rows. -/
def filterStep (s : secamiz0r) (rE rO : ℕ → ℤ) (st : FilSt) (i : ℕ) : FilSt :=
  let y_even : ℤ := ((st.rowE i).c0 : ℤ)
  let y_odd : ℤ := ((st.rowO i).c0 : ℤ)
  let u : ℤ := ((st.rowO i).c1 : ℤ) - 128
  let v : ℤ := ((st.rowE i).c1 : ℤ) - 128
  let z_even : ℤ := ((st.rowE i).c2 : ℤ)
  let z_odd : ℤ := ((st.rowO i).c2 : ℤ)
  let u := if 0 < st.u_fire then u + st.u_fire * st.u_fire_sign else u
  let u_fire := if 0 < st.u_fire then st.u_fire - fire_fade else st.u_fire
  let v := if 0 < st.v_fire then v + st.v_fire * st.v_fire_sign else v
  let v_fire := if 0 < st.v_fire then st.v_fire - fire_fade else st.v_fire
  let u_fire := if 0 < z_odd then z_odd else u_fire
  let v_fire := if 0 < z_even then z_even else v_fire
  let y_even := if 0 < s.luma_noise then y_even + (rE i).tmod s.luma_noise else y_even
  let y_odd := if 0 < s.luma_noise then y_odd + (rO i).tmod s.luma_noise else y_odd
  let u := if 0 < s.chroma_noise then
      u + cTrunc ((u : ℚ) * 2 * ((s.chroma_noise : ℚ) / 256)) + (rO i).tmod s.chroma_noise
    else u
  let v := if 0 < s.chroma_noise then
      v + cTrunc ((v : ℚ) * 2 * ((s.chroma_noise : ℚ) / 256)) + (rE i).tmod s.chroma_noise
    else v
  let y_even := if echoGuard s i then
      y_even + (y_even - ((st.rowE (i - s.echo_offset.toNat)).c0 : ℤ)).tdiv 2
    else y_even
  let y_odd := if echoGuard s i then
      y_odd + (y_odd - ((st.rowO (i - s.echo_offset.toNat)).c0 : ℤ)).tdiv 2
    else y_odd
  { u_fire := u_fire
    u_fire_sign := st.u_fire_sign
    v_fire := v_fire
    v_fire_sign := st.v_fire_sign
    rowE := setPix st.rowE i
      ⟨clamp_byte y_even, clamp_byte (v + 128), (st.rowE i).c2, (st.rowE i).c3⟩
    rowO := setPix st.rowO i
      ⟨clamp_byte y_odd, clamp_byte (u + 128), (st.rowO i).c2, (st.rowO i).c3⟩ }

/-- C `filter_pair` (Stage 2.2): the noise/fire/echo filter, walking
columns `0 .. width-1` with fire runs initially inactive and both fire
signs at `+1` (the dynamic sign choice is commented out in the source). -/
def filter_pair (s : secamiz0r) (rE rO : ℕ → ℤ) (even odd : Row) : Row × Row :=
  let fin := (List.range s.width).foldl (filterStep s rE rO) ⟨0, 1, 0, 1, even, odd⟩
  (fin.rowE, fin.rowO)

/-- C constant `luma_loss` of `convert_pair_to_rgb`. -/
def luma_loss : ℕ := 4

/-- C constant `chroma_loss` of `convert_pair_to_rgb`. -/
def chroma_loss : ℕ := 8

/-- The decoder's window index `clamp_int((int)(i + j), 0, width - 1)`,
converted back to a column index. -/
def clampWindowIdx (w k : ℕ) : ℕ :=
  (clamp_int (k : ℤ) 0 ((w : ℤ) - 1)).toNat

/-- One iteration of the loop of `convert_pair_to_rgb` at column `i`:
sum luma over a forward window of `luma_loss` positions and chroma over a
forward window of `chroma_loss` positions (indices clamped to the last
column), normalize, and write the converted RGB pixel of both rows. -/
def convertStep (s : secamiz0r) (st : Row × Row) (i : ℕ) : Row × Row :=
  let y_even : ℚ :=
    (((List.range luma_loss).map
      (fun j => ((st.1 (clampWindowIdx s.width (i + j))).c0 : ℚ))).sum) / (255 * luma_loss)
  let y_odd : ℚ :=
    (((List.range luma_loss).map
      (fun j => ((st.2 (clampWindowIdx s.width (i + j))).c0 : ℚ))).sum) / (255 * luma_loss)
  let u : ℚ :=
    (((List.range chroma_loss).map
      (fun j => ((st.2 (clampWindowIdx s.width (i + j))).c1 : ℚ))).sum) / (255 * chroma_loss)
  let v : ℚ :=
    (((List.range chroma_loss).map
      (fun j => ((st.1 (clampWindowIdx s.width (i + j))).c1 : ℚ))).sum) / (255 * chroma_loss)
  (setPix st.1 i (rgb_from_yuv (st.1 i) y_even u v),
   setPix st.2 i (rgb_from_yuv (st.2 i) y_odd u v))

/-- C `convert_pair_to_rgb` (Stage 3): the lossy decoder. -/
def convert_pair_to_rgb (s : secamiz0r) (even odd : Row) : Row × Row :=
  (List.range s.width).foldl (convertStep s) (even, odd)

/-- A whole frame buffer, addressed by pixel index (row-major). -/
def Frame : Type := ℕ → Pix

/-- View a frame from a starting pixel index as a row (the C pointer
`&buf[start]`). -/
def getRow (buf : Frame) (start : ℕ) : Row :=
  fun j => buf (start + j)

/-- Write `w` pixels of a row back into a frame at a starting index. -/
def putRow (buf : Frame) (start w : ℕ) (row : Row) : Frame :=
  fun k => if start ≤ k ∧ k < start + w then row (k - start) else buf k

/-- Row indices at which the frame loop of `f0r_update`
`for (i = 0; i < height; i += 2)` starts an iteration. -/
def pairStarts (h : ℕ) : List ℕ :=
  (List.range ((h + 1) / 2)).map (fun k => 2 * k)

/-- The random values drawn during one call of `f0r_update`: for each
row-pair iteration, `prefilter_pair` and `filter_pair` each call `rand()`
for the even and the odd row and then advance that value per column; the
values so produced are abstracted as streams indexed by the pair's row
index and the in-row iteration index. -/
structure Streams where
  preE : ℕ → ℕ → ℤ
  preO : ℕ → ℕ → ℤ
  filE : ℕ → ℕ → ℤ
  filO : ℕ → ℕ → ℤ

/-- One iteration of the frame loop of `f0r_update`, for the row pair
starting at row `i`: run the four stages on rows `i` and `i + 1` of the
destination buffer. -/
def updatePair (s : secamiz0r) (rs : Streams) (src : Frame) (buf : Frame) (i : ℕ) : Frame :=
  let evenStart := i * s.width
  let oddStart := (i + 1) * s.width
  let enc := copy_pair_as_yuv s (getRow buf evenStart) (getRow buf oddStart)
    (getRow src evenStart) (getRow src oddStart)
  let pre := prefilter_pair s (rs.preE i) (rs.preO i) enc.1 enc.2
  let fil := filter_pair s (rs.filE i) (rs.filO i) pre.1 pre.2
  let dec := convert_pair_to_rgb s fil.1 fil.2
  putRow (putRow buf evenStart s.width dec.1) oddStart s.width dec.2

/-- C `f0r_update`: run the pipeline on every row pair and increment the
frame counter. -/
def f0r_update (s : secamiz0r) (rs : Streams) (src dst : Frame) : Frame × secamiz0r :=
  ((pairStarts s.height).foldl (updatePair s rs src) dst,
   { s with frame_count := s.frame_count + 1 })

/-- Row indices of the destination (and source) buffer accessed by the
frame loop of `f0r_update`: each iteration starting at row `i` reads and
writes rows `i` and `i + 1`. -/
def touchedRows (h : ℕ) : List ℕ :=
  (pairStarts h).flatMap (fun i => [i, i + 1])

/-- Column indices of a row accessed by `copy_pair_as_yuv`: each 2-pixel
block starting at `i` touches columns `i` and `i + 1` of both source rows
and both destination rows. -/
def copyPairCols (w : ℕ) : List ℕ :=
  (blockStarts w).flatMap (fun i => [i, i + 1])

/-- Column indices accessed by `prefilter_pair`: the iteration at column
`i` reads columns `i` and `i - 1` and (possibly) writes column `i`. -/
def prefilterCols (w : ℕ) : List ℕ :=
  (List.range' 1 (w - 1)).flatMap (fun i => [i - 1, i])

/-- Column indices accessed by `filter_pair`: the iteration at column `i`
reads and writes column `i`, and when the echo guard holds also reads
column `i - echo_offset`. -/
def filterCols (echo : ℤ) (w : ℕ) : List ℕ :=
  (List.range w).flatMap
    (fun i => if 1 ≤ echo ∧ echo ≤ (i : ℤ) then [i - echo.toNat, i] else [i])

/-- Column indices accessed by `convert_pair_to_rgb`: the iteration at
column `i` reads the clamped window positions (the luma window is a subset
of the chroma window) and writes column `i`. -/
def decoderCols (w : ℕ) : List ℕ :=
  (List.range w).flatMap
    (fun i => ((List.range chroma_loss).map (fun j => clampWindowIdx w (i + j))) ++ [i])

/-- The all-zero pixel. -/
def zeroPix : Pix := ⟨0, 0, 0, 0⟩

/-- The all-zero row. -/
def zeroRow : Row := fun _ => zeroPix

/-- Per-column specification of the encoder's even output row, read off
the claim: channel 0 is the per-pixel luma, channel 1 the `v` derived
from the even row's block-averaged RGB (the block containing column `j`
starts at `2 * (j / 2)`), channel 2 is zero, channel 3 the source
alpha. -/
def encodedEvenPix (se : Row) (j : ℕ) : Pix :=
  ⟨y_from_rgb (unpack_rgb (se j)),
   v_from_rgb (avg_rgb (unpack_rgb (se (2 * (j / 2)))) (unpack_rgb (se (2 * (j / 2) + 1)))),
   0,
   (se j).c3⟩

/-- Per-column specification of the encoder's odd output row: as
`encodedEvenPix` but with channel 1 the `u` derived from the odd row's
block-averaged RGB. -/
def encodedOddPix (so : Row) (j : ℕ) : Pix :=
  ⟨y_from_rgb (unpack_rgb (so j)),
   u_from_rgb (avg_rgb (unpack_rgb (so (2 * (j / 2)))) (unpack_rgb (so (2 * (j / 2) + 1)))),
   0,
   (so j).c3⟩

/-- Oscillation accumulator of the detector over the input luma of one
row, after completing the iteration at column `i` (`i = 0` is the state
before the loop): initialized to `umod(r, fire_seed)` (or `0` when
`fire_seed` is zero), then at each column raised by
`|luma(i) - luma(i-1) - umod(r, 512)|` and halved by C integer
division. -/
def oscAfter (s : secamiz0r) (r : ℕ → ℤ) (row : Row) : ℕ → ℤ
  | 0 => if s.fire_seed = 0 then 0 else umod (r 0) s.fire_seed
  | i + 1 => (oscAfter s r row i +
      |((row (i + 1)).c0 : ℤ) - ((row i).c0 : ℤ) - umod (r i) 512|).tdiv 2

/-- The accumulator value at which the detector tests the threshold at
column `i + 1`: after the addition, before the halving. -/
def oscPeak (s : secamiz0r) (r : ℕ → ℤ) (row : Row) (i : ℕ) : ℤ :=
  oscAfter s r row i + |((row (i + 1)).c0 : ℤ) - ((row i).c0 : ℤ) - umod (r i) 512|

/-- Per-column specification of one detector output row after the columns
`1 .. m` have been scanned: channel 2 of column `j` is overwritten with
`umod(r, 80)` exactly when `1 ≤ j ≤ m` and the peak accumulator at `j`
exceeded the threshold; everything else is unchanged. -/
def preMarked (s : secamiz0r) (r : ℕ → ℤ) (row : Row) (m j : ℕ) : Pix :=
  if 1 ≤ j ∧ j ≤ m ∧ s.fire_threshold < oscPeak s r row (j - 1) then
    { row j with c2 := (umod (r (j - 1)) 80).toNat }
  else row j

/-- The decoder's blurred luma at column `i`: the average of the luma
channel over a forward-looking window of `luma_loss` positions, every
index clamped to the last valid column. -/
def lumaWindowAvg (row : Row) (w i : ℕ) : ℚ :=
  (((List.range luma_loss).map
    (fun j => ((row (clampWindowIdx w (i + j))).c0 : ℚ))).sum) / (255 * luma_loss)

/-- The decoder's blurred chroma at column `i`: the average of the chroma
channel over a forward-looking window of `chroma_loss` positions, every
index clamped to the last valid column. -/
def chromaWindowAvg (row : Row) (w i : ℕ) : ℚ :=
  (((List.range chroma_loss).map
    (fun j => ((row (clampWindowIdx w (i + j))).c1 : ℚ))).sum) / (255 * chroma_loss)

/-- Per-column specification of the decoder's even output row, in terms
of the decoder's input rows: the RGB conversion of the blurred luma of
the even row with the blurred `u` of the odd row and blurred `v` of the
even row; channel 3 is that of the input pixel. -/
def decodedEvenPix (even odd : Row) (w i : ℕ) : Pix :=
  rgb_from_yuv (even i) (lumaWindowAvg even w i)
    (chromaWindowAvg odd w i) (chromaWindowAvg even w i)

/-- Per-column specification of the decoder's odd output row. -/
def decodedOddPix (even odd : Row) (w i : ℕ) : Pix :=
  rgb_from_yuv (odd i) (lumaWindowAvg odd w i)
    (chromaWindowAvg odd w i) (chromaWindowAvg even w i)

/-- The all-zero frame. -/
def zeroFrame : Frame := fun _ => zeroPix

/-- Streams that always draw zero. -/
def zeroStreams : Streams :=
  ⟨fun _ _ => 0, fun _ _ => 0, fun _ _ => 0, fun _ _ => 0⟩

/-- The instance state after constructing a 2-by-2 frame and setting both
the Fire intensity and the Noise intensity parameters to 0. -/
def c1State : secamiz0r :=
  set_noise_intensity (set_fire_intensity (f0r_construct 2 2) 0) 0

/-- Streams that draw zero except for the filter stage's even-row stream,
which always draws 8. -/
def c1StreamsB : Streams :=
  ⟨fun _ _ => 0, fun _ _ => 0, fun _ _ => 8, fun _ _ => 0⟩

/-- Streams that draw zero in the filter stage but a nonzero value in the
detector stage. -/
def c1StreamsC : Streams :=
  ⟨fun _ _ => 7, fun _ _ => 7, fun _ _ => 0, fun _ _ => 0⟩

/-- States reachable through the public interface: a constructed instance
followed by any sequence of parameter-setter calls. -/
inductive Reachable : secamiz0r → Prop
  | construct (w h : ℕ) : Reachable (f0r_construct w h)
  | fire (s : secamiz0r) (x : ℚ) : Reachable s → Reachable (set_fire_intensity s x)
  | noise (s : secamiz0r) (x : ℚ) : Reachable s → Reachable (set_noise_intensity s x)

/-- A clamped value lies in the clamping interval. -/
lemma clamp_int_mem (value a b : ℤ) (hab : a ≤ b) :
    a ≤ clamp_int value a b ∧ clamp_int value a b ≤ b := by
  unfold clamp_int
  split_ifs with h1 h2 <;> omega

/-- `clamp_int` is monotone in the clamped value (for a sensible range). -/
lemma clamp_int_mono {v w : ℤ} (a b : ℤ) (hab : a ≤ b) (hvw : v ≤ w) :
    clamp_int v a b ≤ clamp_int w a b := by
  unfold clamp_int
  split_ifs <;> omega

/-- Truncation toward zero is monotone on nonnegative arguments (where it
agrees with the floor). -/
lemma cTrunc_mono_nonneg {x y : ℚ} (hx : 0 ≤ x) (hxy : x ≤ y) :
    cTrunc x ≤ cTrunc y := by
  unfold cTrunc
  rw [if_pos hx, if_pos (hx.trans hxy)]
  exact Int.floor_le_floor hxy

/-- Bounds of the three noise-derived fields after any call of
`set_noise_intensity`. -/
lemma set_noise_intensity_bounds (s : secamiz0r) (x : ℚ) :
    (16 ≤ (set_noise_intensity s x).luma_noise ∧ (set_noise_intensity s x).luma_noise ≤ 224) ∧
    (32 ≤ (set_noise_intensity s x).chroma_noise ∧ (set_noise_intensity s x).chroma_noise ≤ 256) ∧
    (2 ≤ (set_noise_intensity s x).echo_offset ∧ (set_noise_intensity s x).echo_offset ≤ 16) := by
  refine ⟨clamp_int_mem _ 16 224 (by norm_num), clamp_int_mem _ 32 256 (by norm_num),
    clamp_int_mem _ 2 16 (by norm_num)⟩

/-- The noise-derived bounds hold in every reachable state. -/
lemma reachable_noise_bounds (s : secamiz0r) (h : Reachable s) :
    (16 ≤ s.luma_noise ∧ s.luma_noise ≤ 224) ∧
    (32 ≤ s.chroma_noise ∧ s.chroma_noise ≤ 256) ∧
    (2 ≤ s.echo_offset ∧ s.echo_offset ≤ 16) := by
  induction h with
  | construct w h => exact set_noise_intensity_bounds _ _
  | fire s x _ ih => exact ih
  | noise s x _ _ => exact set_noise_intensity_bounds _ _

/-- For a nonempty row the clamped decoder window index is in range. -/
lemma clampWindowIdx_lt (w k : ℕ) (hw : 1 ≤ w) : clampWindowIdx w k < w := by
  unfold clampWindowIdx clamp_int
  split_ifs <;> omega

/-- Reading the column just written. -/
lemma setPix_self (row : Row) (i : ℕ) (p : Pix) : setPix row i p i = p := by
  unfold setPix
  simp

/-- Reading a column other than the one written. -/
lemma setPix_ne (row : Row) (i j : ℕ) (p : Pix) (h : j ≠ i) : setPix row i p j = row j := by
  unfold setPix
  simp [h]

/-- Characterization of the encoder loop over its first `n` blocks:
columns below `2n` hold the per-column encoded pixels, columns from `2n`
on are still the initial destination rows. -/
lemma encode_fold_spec (se so de dd : Row) (n : ℕ) :
    (∀ j, j < 2 * n →
      (((List.range n).map (fun k => 2 * k)).foldl (encodeBlock se so) (de, dd)).1 j =
        encodedEvenPix se j ∧
      (((List.range n).map (fun k => 2 * k)).foldl (encodeBlock se so) (de, dd)).2 j =
        encodedOddPix so j) ∧
    (∀ j, 2 * n ≤ j →
      (((List.range n).map (fun k => 2 * k)).foldl (encodeBlock se so) (de, dd)).1 j = de j ∧
      (((List.range n).map (fun k => 2 * k)).foldl (encodeBlock se so) (de, dd)).2 j = dd j) := by
  induction n with
  | zero =>
    constructor
    · intro j hj
      omega
    · intro j _
      simp
  | succ n ih =>
    obtain ⟨ih1, ih2⟩ := ih
    rw [List.range_succ, List.map_append, List.foldl_append]
    simp only [List.map_cons, List.map_nil, List.foldl_cons, List.foldl_nil]
    set r0 := ((List.range n).map (fun k => 2 * k)).foldl (encodeBlock se so) (de, dd) with hr0
    constructor
    · intro j hj
      rcases lt_trichotomy j (2 * n) with hlt | heq | hgt
      · simp only [encodeBlock]
        rw [setPix_ne _ _ _ _ (by omega), setPix_ne _ _ _ _ (by omega),
          setPix_ne _ _ _ _ (by omega), setPix_ne _ _ _ _ (by omega)]
        exact ih1 j hlt
      · subst heq
        simp only [encodeBlock]
        rw [setPix_ne _ _ _ _ (by omega), setPix_self,
          setPix_ne _ _ _ _ (by omega), setPix_self]
        unfold encodedEvenPix encodedOddPix
        have hd : 2 * (2 * n / 2) = 2 * n := by omega
        rw [hd]
        exact ⟨rfl, rfl⟩
      · have hj1 : j = 2 * n + 1 := by omega
        subst hj1
        simp only [encodeBlock]
        rw [setPix_self, setPix_self]
        unfold encodedEvenPix encodedOddPix
        have hd : 2 * ((2 * n + 1) / 2) = 2 * n := by omega
        rw [hd]
        exact ⟨rfl, rfl⟩
    · intro j hj
      simp only [encodeBlock]
      rw [setPix_ne _ _ _ _ (by omega), setPix_ne _ _ _ _ (by omega),
        setPix_ne _ _ _ _ (by omega), setPix_ne _ _ _ _ (by omega)]
      exact ih2 j (by omega)

/-- The encoder output rows, column by column (even width). -/
lemma copy_pair_spec (s : secamiz0r) (hw : s.width % 2 = 0) (de dd se so : Row)
    (j : ℕ) (hj : j < s.width) :
    (copy_pair_as_yuv s de dd se so).1 j = encodedEvenPix se j ∧
    (copy_pair_as_yuv s de dd se so).2 j = encodedOddPix so j := by
  unfold copy_pair_as_yuv blockStarts
  have hn : (s.width + 1) / 2 = s.width / 2 := by omega
  rw [hn]
  exact (encode_fold_spec se so de dd (s.width / 2)).1 j (by omega)

/-- Claim C3: for an even width the encoder writes, at every column `j` of
the two destination rows, exactly the pixel described by the claim: the
per-pixel luma in channel 0; in channel 1 the `v` derived from the even
row's block-averaged RGB (shared by both columns of the 2-pixel block) on
the even row, and the `u` derived from the odd row's block-averaged RGB
on the odd row; `0` in channel 2; and the corresponding source alpha in
channel 3. -/
theorem C3_encoder (s : secamiz0r) (hw : s.width % 2 = 0) (de dd se so : Row)
    (j : ℕ) (hj : j < s.width) :
    (copy_pair_as_yuv s de dd se so).1 j = encodedEvenPix se j ∧
    (copy_pair_as_yuv s de dd se so).2 j = encodedOddPix so j :=
  copy_pair_spec s hw de dd se so j hj

/-- Claim C3 witness: the encoder characterization applied to the
constructed 4-wide instance, all-zero rows and column 1. -/
theorem C3_witness :
    (copy_pair_as_yuv (f0r_construct 4 4) zeroRow zeroRow zeroRow zeroRow).1 1 =
      encodedEvenPix zeroRow 1 ∧
    (copy_pair_as_yuv (f0r_construct 4 4) zeroRow zeroRow zeroRow zeroRow).2 1 =
      encodedOddPix zeroRow 1 :=
  C3_encoder (f0r_construct 4 4) (by decide) zeroRow zeroRow zeroRow zeroRow 1 (by decide)

/-- The C `umod` helper returns a value in `[0, b)` for a positive
modulus, whatever the sign of the dividend. -/
lemma umod_bounds (a b : ℤ) (hb : 0 < b) : 0 ≤ umod a b ∧ umod a b < b := by
  unfold umod
  rcases le_or_lt 0 a with ha | ha
  · have h0 : 0 ≤ a.tmod b := Int.tmod_nonneg b ha
    have h1 : a.tmod b < b := Int.tmod_lt_of_pos a hb
    rw [Int.tmod_eq_emod (by omega) (by omega), Int.add_emod_self,
      Int.emod_eq_of_lt h0 h1]
    omega
  · have hmn : (-a).tmod b = -(a.tmod b) := by
      rw [Int.tmod_def, Int.tmod_def, Int.neg_tdiv]
      ring
    have h0 : 0 ≤ (-a).tmod b := Int.tmod_nonneg b (by omega)
    have h1 : (-a).tmod b < b := Int.tmod_lt_of_pos (-a) hb
    have h2 : -b < a.tmod b ∧ a.tmod b ≤ 0 := by omega
    rcases eq_or_lt_of_le h2.2 with heq | hlt
    · rw [heq]
      simp [Int.tmod_self]
      omega
    · rw [Int.tmod_eq_emod (by omega) (by omega), Int.add_emod_self]
      have h3 : a.tmod b % b = (a.tmod b + b) % b := (Int.add_emod_self).symm
      rw [h3, Int.emod_eq_of_lt (by omega) (by omega)]
      omega

/-- `preMarked` only ever rewrites channel 2. -/
lemma preMarked_channels (s : secamiz0r) (r : ℕ → ℤ) (row : Row) (m j : ℕ) :
    (preMarked s r row m j).c0 = (row j).c0 ∧
    (preMarked s r row m j).c1 = (row j).c1 ∧
    (preMarked s r row m j).c3 = (row j).c3 := by
  unfold preMarked
  split_ifs <;> exact ⟨rfl, rfl, rfl⟩

/-- Beyond the scanned columns `preMarked` is the input row. -/
lemma preMarked_gt (s : secamiz0r) (r : ℕ → ℤ) (row : Row) (m j : ℕ) (h : m < j) :
    preMarked s r row m j = row j := by
  unfold preMarked
  rw [if_neg]
  rintro ⟨-, h2, -⟩
  omega

/-- Before any column is scanned nothing is marked. -/
lemma preMarked_zero (s : secamiz0r) (r : ℕ → ℤ) (row : Row) (j : ℕ) :
    preMarked s r row 0 j = row j := by
  unfold preMarked
  rw [if_neg]
  rintro ⟨h1, h2, -⟩
  omega

/-- Scanning one more column does not change the other columns. -/
lemma preMarked_succ_ne (s : secamiz0r) (r : ℕ → ℤ) (row : Row) (m j : ℕ) (h : j ≠ m + 1) :
    preMarked s r row (m + 1) j = preMarked s r row m j := by
  unfold preMarked
  have hiff : (1 ≤ j ∧ j ≤ m + 1 ∧ s.fire_threshold < oscPeak s r row (j - 1)) ↔
      (1 ≤ j ∧ j ≤ m ∧ s.fire_threshold < oscPeak s r row (j - 1)) := by
    constructor
    · rintro ⟨h1, h2, h3⟩
      exact ⟨h1, by omega, h3⟩
    · rintro ⟨h1, h2, h3⟩
      exact ⟨h1, by omega, h3⟩
  exact if_congr hiff rfl rfl

/-- Characterization of the detector loop after scanning columns
`1 .. m`: the accumulators follow the `oscAfter` recurrence on the input
luma and the rows are the input rows with channel-2 marks. -/
lemma prefilter_fold_spec (s : secamiz0r) (rE rO : ℕ → ℤ) (even odd : Row) (m : ℕ) :
    ((List.range' 1 m).foldl (prefilterStep s rE rO)
        ⟨oscAfter s rE even 0, oscAfter s rO odd 0, even, odd⟩).oscE =
      oscAfter s rE even m ∧
    ((List.range' 1 m).foldl (prefilterStep s rE rO)
        ⟨oscAfter s rE even 0, oscAfter s rO odd 0, even, odd⟩).oscO =
      oscAfter s rO odd m ∧
    (∀ j, ((List.range' 1 m).foldl (prefilterStep s rE rO)
        ⟨oscAfter s rE even 0, oscAfter s rO odd 0, even, odd⟩).rowE j =
      preMarked s rE even m j) ∧
    (∀ j, ((List.range' 1 m).foldl (prefilterStep s rE rO)
        ⟨oscAfter s rE even 0, oscAfter s rO odd 0, even, odd⟩).rowO j =
      preMarked s rO odd m j) := by
  induction m with
  | zero =>
    refine ⟨rfl, rfl, fun j => ?_, fun j => ?_⟩ <;>
      exact (preMarked_zero _ _ _ j).symm
  | succ m ih =>
    obtain ⟨ihE, ihO, ihRE, ihRO⟩ := ih
    rw [List.range'_1_concat, Nat.add_comm 1 m, List.foldl_append,
      List.foldl_cons, List.foldl_nil]
    set st0 := (List.range' 1 m).foldl (prefilterStep s rE rO)
      ⟨oscAfter s rE even 0, oscAfter s rO odd 0, even, odd⟩ with hst0
    have hE1 : (st0.rowE (m + 1)).c0 = (even (m + 1)).c0 := by
      rw [ihRE (m + 1), preMarked_gt _ _ _ _ _ (by omega)]
    have hE0 : (st0.rowE (m + 1 - 1)).c0 = (even m).c0 := by
      have hm : m + 1 - 1 = m := by omega
      rw [hm, ihRE m]
      exact (preMarked_channels s rE even m m).1
    have hO1 : (st0.rowO (m + 1)).c0 = (odd (m + 1)).c0 := by
      rw [ihRO (m + 1), preMarked_gt _ _ _ _ _ (by omega)]
    have hO0 : (st0.rowO (m + 1 - 1)).c0 = (odd m).c0 := by
      have hm : m + 1 - 1 = m := by omega
      rw [hm, ihRO m]
      exact (preMarked_channels s rO odd m m).1
    have hoeE : st0.oscE +
        |((st0.rowE (m + 1)).c0 : ℤ) - ((st0.rowE (m + 1 - 1)).c0 : ℤ) -
          umod (rE (m + 1 - 1)) 512| = oscPeak s rE even m := by
      rw [hE1, hE0, ihE]
      have hm : m + 1 - 1 = m := by omega
      rw [hm]
      rfl
    have hoeO : st0.oscO +
        |((st0.rowO (m + 1)).c0 : ℤ) - ((st0.rowO (m + 1 - 1)).c0 : ℤ) -
          umod (rO (m + 1 - 1)) 512| = oscPeak s rO odd m := by
      rw [hO1, hO0, ihO]
      have hm : m + 1 - 1 = m := by omega
      rw [hm]
      rfl
    refine ⟨?_, ?_, ?_, ?_⟩
    · show (st0.oscE + _).tdiv 2 = _
      rw [hoeE]
      rfl
    · show (st0.oscO + _).tdiv 2 = _
      rw [hoeO]
      rfl
    · intro j
      show (if s.fire_threshold < st0.oscE + _ then _ else st0.rowE) j = _
      rw [hoeE]
      have hm : m + 1 - 1 = m := by omega
      by_cases hc : s.fire_threshold < oscPeak s rE even m
      · rw [if_pos hc]
        by_cases hj : j = m + 1
        · subst hj
          rw [setPix_self, ihRE (m + 1), preMarked_gt _ _ _ _ _ (by omega)]
          unfold preMarked
          rw [if_pos ⟨by omega, by omega, by rw [Nat.add_sub_cancel]; exact hc⟩, hm]
        · rw [setPix_ne _ _ _ _ hj, ihRE j, preMarked_succ_ne _ _ _ _ _ hj]
      · rw [if_neg hc]
        by_cases hj : j = m + 1
        · subst hj
          rw [ihRE (m + 1), preMarked_gt _ _ _ _ _ (by omega)]
          unfold preMarked
          rw [if_neg]
          rintro ⟨-, -, h3⟩
          rw [Nat.add_sub_cancel] at h3
          exact hc h3
        · rw [ihRE j, preMarked_succ_ne _ _ _ _ _ hj]
    · intro j
      show (if s.fire_threshold < st0.oscO + _ then _ else st0.rowO) j = _
      rw [hoeO]
      have hm : m + 1 - 1 = m := by omega
      by_cases hc : s.fire_threshold < oscPeak s rO odd m
      · rw [if_pos hc]
        by_cases hj : j = m + 1
        · subst hj
          rw [setPix_self, ihRO (m + 1), preMarked_gt _ _ _ _ _ (by omega)]
          unfold preMarked
          rw [if_pos ⟨by omega, by omega, by rw [Nat.add_sub_cancel]; exact hc⟩, hm]
        · rw [setPix_ne _ _ _ _ hj, ihRO j, preMarked_succ_ne _ _ _ _ _ hj]
      · rw [if_neg hc]
        by_cases hj : j = m + 1
        · subst hj
          rw [ihRO (m + 1), preMarked_gt _ _ _ _ _ (by omega)]
          unfold preMarked
          rw [if_neg]
          rintro ⟨-, -, h3⟩
          rw [Nat.add_sub_cancel] at h3
          exact hc h3
        · rw [ihRO j, preMarked_succ_ne _ _ _ _ _ hj]

/-- The detector output rows, column by column. -/
lemma prefilter_pair_spec (s : secamiz0r) (rE rO : ℕ → ℤ) (even odd : Row) (j : ℕ) :
    (prefilter_pair s rE rO even odd).1 j = preMarked s rE even (s.width - 1) j ∧
    (prefilter_pair s rE rO even odd).2 j = preMarked s rO odd (s.width - 1) j := by
  have h := prefilter_fold_spec s rE rO even odd (s.width - 1)
  exact ⟨h.2.2.1 j, h.2.2.2 j⟩

/-- Claim C4: per row, the detector starts its accumulator from `0` when
`fire_seed` is zero and otherwise from `umod(r, fire_seed)`, a value in
`[0, fire_seed)` for positive `fire_seed`; at each column `1 ≤ j < width`
it adds `|luma(j) - luma(j-1) - umod(r, 512)|`, tests the raised value
against `fire_threshold` (writing `umod(r, 80)`, a value in `[0, 80)`,
into channel 2 exactly when the test succeeds) and then halves the
accumulator with C integer division; no other channel of either row is
written. -/
theorem C4_detector (s : secamiz0r) (rE rO : ℕ → ℤ) (even odd : Row) (j : ℕ) :
    (s.fire_seed = 0 → oscAfter s rE even 0 = 0) ∧
    (0 < s.fire_seed → 0 ≤ oscAfter s rE even 0 ∧ oscAfter s rE even 0 < s.fire_seed) ∧
    (∀ i, oscPeak s rE even i =
      oscAfter s rE even i + |((even (i + 1)).c0 : ℤ) - ((even i).c0 : ℤ) - umod (rE i) 512|) ∧
    (∀ i, oscAfter s rE even (i + 1) = (oscPeak s rE even i).tdiv 2) ∧
    ((prefilter_pair s rE rO even odd).1 j).c2 =
      (if 1 ≤ j ∧ j ≤ s.width - 1 ∧ s.fire_threshold < oscPeak s rE even (j - 1) then
        (umod (rE (j - 1)) 80).toNat else (even j).c2) ∧
    ((prefilter_pair s rE rO even odd).2 j).c2 =
      (if 1 ≤ j ∧ j ≤ s.width - 1 ∧ s.fire_threshold < oscPeak s rO odd (j - 1) then
        (umod (rO (j - 1)) 80).toNat else (odd j).c2) ∧
    (0 ≤ umod (rE (j - 1)) 80 ∧ umod (rE (j - 1)) 80 < 80) ∧
    ((prefilter_pair s rE rO even odd).1 j).c0 = (even j).c0 ∧
    ((prefilter_pair s rE rO even odd).1 j).c1 = (even j).c1 ∧
    ((prefilter_pair s rE rO even odd).1 j).c3 = (even j).c3 ∧
    ((prefilter_pair s rE rO even odd).2 j).c0 = (odd j).c0 ∧
    ((prefilter_pair s rE rO even odd).2 j).c1 = (odd j).c1 ∧
    ((prefilter_pair s rE rO even odd).2 j).c3 = (odd j).c3 := by
  obtain ⟨hrow1, hrow2⟩ := prefilter_pair_spec s rE rO even odd j
  obtain ⟨he0, he1, he3⟩ := preMarked_channels s rE even (s.width - 1) j
  obtain ⟨ho0, ho1, ho3⟩ := preMarked_channels s rO odd (s.width - 1) j
  refine ⟨?_, ?_, fun i => rfl, fun i => rfl, ?_, ?_, ?_, ?_, ?_, ?_, ?_, ?_, ?_⟩
  · intro h
    show (if s.fire_seed = 0 then 0 else umod (rE 0) s.fire_seed) = 0
    rw [if_pos h]
  · intro h
    show 0 ≤ (if s.fire_seed = 0 then 0 else umod (rE 0) s.fire_seed) ∧
      (if s.fire_seed = 0 then 0 else umod (rE 0) s.fire_seed) < s.fire_seed
    rw [if_neg (by omega)]
    exact umod_bounds (rE 0) s.fire_seed h
  · rw [hrow1]
    unfold preMarked
    split_ifs with h
    · rfl
    · rfl
  · rw [hrow2]
    unfold preMarked
    split_ifs with h
    · rfl
    · rfl
  · exact umod_bounds (rE (j - 1)) 80 (by omega)
  · rw [hrow1]; exact he0
  · rw [hrow1]; exact he1
  · rw [hrow1]; exact he3
  · rw [hrow2]; exact ho0
  · rw [hrow2]; exact ho1
  · rw [hrow2]; exact ho3

/-- Claim C4 witness: the detector characterization at the constructed
4-wide instance, the all-zero streams and rows, and column 1. -/
theorem C4_witness :
    ((f0r_construct 4 4).fire_seed = 0 →
      oscAfter (f0r_construct 4 4) (fun _ => 0) zeroRow 0 = 0) ∧
    (0 < (f0r_construct 4 4).fire_seed →
      0 ≤ oscAfter (f0r_construct 4 4) (fun _ => 0) zeroRow 0 ∧
      oscAfter (f0r_construct 4 4) (fun _ => 0) zeroRow 0 < (f0r_construct 4 4).fire_seed) ∧
    (∀ i, oscPeak (f0r_construct 4 4) (fun _ => 0) zeroRow i =
      oscAfter (f0r_construct 4 4) (fun _ => 0) zeroRow i +
        |((zeroRow (i + 1)).c0 : ℤ) - ((zeroRow i).c0 : ℤ) - umod ((fun _ => (0 : ℤ)) i) 512|) ∧
    (∀ i, oscAfter (f0r_construct 4 4) (fun _ => 0) zeroRow (i + 1) =
      (oscPeak (f0r_construct 4 4) (fun _ => 0) zeroRow i).tdiv 2) ∧
    ((prefilter_pair (f0r_construct 4 4) (fun _ => 0) (fun _ => 0) zeroRow zeroRow).1 1).c2 =
      (if 1 ≤ 1 ∧ 1 ≤ (f0r_construct 4 4).width - 1 ∧
          (f0r_construct 4 4).fire_threshold <
            oscPeak (f0r_construct 4 4) (fun _ => 0) zeroRow (1 - 1) then
        (umod ((fun _ => (0 : ℤ)) (1 - 1)) 80).toNat else (zeroRow 1).c2) ∧
    ((prefilter_pair (f0r_construct 4 4) (fun _ => 0) (fun _ => 0) zeroRow zeroRow).2 1).c2 =
      (if 1 ≤ 1 ∧ 1 ≤ (f0r_construct 4 4).width - 1 ∧
          (f0r_construct 4 4).fire_threshold <
            oscPeak (f0r_construct 4 4) (fun _ => 0) zeroRow (1 - 1) then
        (umod ((fun _ => (0 : ℤ)) (1 - 1)) 80).toNat else (zeroRow 1).c2) ∧
    (0 ≤ umod ((fun _ => (0 : ℤ)) (1 - 1)) 80 ∧ umod ((fun _ => (0 : ℤ)) (1 - 1)) 80 < 80) ∧
    ((prefilter_pair (f0r_construct 4 4) (fun _ => 0) (fun _ => 0) zeroRow zeroRow).1 1).c0 =
      (zeroRow 1).c0 ∧
    ((prefilter_pair (f0r_construct 4 4) (fun _ => 0) (fun _ => 0) zeroRow zeroRow).1 1).c1 =
      (zeroRow 1).c1 ∧
    ((prefilter_pair (f0r_construct 4 4) (fun _ => 0) (fun _ => 0) zeroRow zeroRow).1 1).c3 =
      (zeroRow 1).c3 ∧
    ((prefilter_pair (f0r_construct 4 4) (fun _ => 0) (fun _ => 0) zeroRow zeroRow).2 1).c0 =
      (zeroRow 1).c0 ∧
    ((prefilter_pair (f0r_construct 4 4) (fun _ => 0) (fun _ => 0) zeroRow zeroRow).2 1).c1 =
      (zeroRow 1).c1 ∧
    ((prefilter_pair (f0r_construct 4 4) (fun _ => 0) (fun _ => 0) zeroRow zeroRow).2 1).c3 =
      (zeroRow 1).c3 :=
  C4_detector (f0r_construct 4 4) (fun _ => 0) (fun _ => 0) zeroRow zeroRow 1

/-- For a column below the width, clamping a forward index never falls
below the column itself. -/
lemma clampWindowIdx_ge (w n j : ℕ) (h : n < w) : n ≤ clampWindowIdx w (n + j) := by
  unfold clampWindowIdx clamp_int
  split_ifs <;> omega

/-- `clamp_byte` lands in the byte range. -/
lemma clamp_byte_le (v : ℤ) : clamp_byte v ≤ 255 := by
  unfold clamp_byte clamp_int
  split_ifs <;> omega

/-- Characterization of the decoder loop after its first `n` iterations:
decoded pixels below column `n`, untouched input rows from column `n` on.
All window reads of an iteration happen at clamped indices at or beyond
the current column, which that iteration has not yet overwritten, so each
output pixel is determined by the decoder's input rows. -/
lemma convert_fold_spec (s : secamiz0r) (even odd : Row) :
    ∀ n, n ≤ s.width →
    ((∀ j, j < n →
      ((List.range n).foldl (convertStep s) (even, odd)).1 j = decodedEvenPix even odd s.width j ∧
      ((List.range n).foldl (convertStep s) (even, odd)).2 j = decodedOddPix even odd s.width j) ∧
    (∀ j, n ≤ j →
      ((List.range n).foldl (convertStep s) (even, odd)).1 j = even j ∧
      ((List.range n).foldl (convertStep s) (even, odd)).2 j = odd j)) := by
  intro n
  induction n with
  | zero =>
    intro _
    exact ⟨fun j hj => absurd hj (by omega), fun j _ => ⟨rfl, rfl⟩⟩
  | succ n ih =>
    intro hn
    obtain ⟨ih1, ih2⟩ := ih (by omega)
    rw [List.range_succ, List.foldl_append, List.foldl_cons, List.foldl_nil]
    set st0 := (List.range n).foldl (convertStep s) (even, odd) with hst0
    have hgeE : ∀ k, n ≤ k → st0.1 k = even k := fun k hk => (ih2 k hk).1
    have hgeO : ∀ k, n ≤ k → st0.2 k = odd k := fun k hk => (ih2 k hk).2
    have hclamp : ∀ j : ℕ, n ≤ clampWindowIdx s.width (n + j) :=
      fun j => clampWindowIdx_ge s.width n j (by omega)
    have hyE : ((List.range luma_loss).map
        (fun j => ((st0.1 (clampWindowIdx s.width (n + j))).c0 : ℚ))).sum =
        ((List.range luma_loss).map
        (fun j => ((even (clampWindowIdx s.width (n + j))).c0 : ℚ))).sum := by
      congr 1
      apply List.map_congr_left
      intro a _
      rw [hgeE _ (hclamp a)]
    have hyO : ((List.range luma_loss).map
        (fun j => ((st0.2 (clampWindowIdx s.width (n + j))).c0 : ℚ))).sum =
        ((List.range luma_loss).map
        (fun j => ((odd (clampWindowIdx s.width (n + j))).c0 : ℚ))).sum := by
      congr 1
      apply List.map_congr_left
      intro a _
      rw [hgeO _ (hclamp a)]
    have hu : ((List.range chroma_loss).map
        (fun j => ((st0.2 (clampWindowIdx s.width (n + j))).c1 : ℚ))).sum =
        ((List.range chroma_loss).map
        (fun j => ((odd (clampWindowIdx s.width (n + j))).c1 : ℚ))).sum := by
      congr 1
      apply List.map_congr_left
      intro a _
      rw [hgeO _ (hclamp a)]
    have hv : ((List.range chroma_loss).map
        (fun j => ((st0.1 (clampWindowIdx s.width (n + j))).c1 : ℚ))).sum =
        ((List.range chroma_loss).map
        (fun j => ((even (clampWindowIdx s.width (n + j))).c1 : ℚ))).sum := by
      congr 1
      apply List.map_congr_left
      intro a _
      rw [hgeE _ (hclamp a)]
    constructor
    · intro j hj
      rcases Nat.lt_succ_iff_lt_or_eq.mp hj with hlt | heq
      · simp only [convertStep]
        rw [setPix_ne _ _ _ _ (by omega), setPix_ne _ _ _ _ (by omega)]
        exact ih1 j hlt
      · subst heq
        simp only [convertStep]
        rw [setPix_self, setPix_self]
        unfold decodedEvenPix decodedOddPix lumaWindowAvg chromaWindowAvg
        rw [hyE, hyO, hu, hv, hgeE j le_rfl, hgeO j le_rfl]
        exact ⟨rfl, rfl⟩
    · intro j hj
      simp only [convertStep]
      rw [setPix_ne _ _ _ _ (by omega), setPix_ne _ _ _ _ (by omega)]
      exact ih2 j (by omega)

/-- Claim C5: for every width at least 1 the decoder writes at every
column `i` the pixel obtained from the average of luma over a
forward-looking window of `luma_loss = 4` positions and of chroma over a
forward-looking window of `chroma_loss = 8` positions, with every window
index clamped into `[0, width)` (indices past the end reuse the last
column, so no read is out of bounds), each produced R, G, B byte clamped
to `[0, 255]`, and channel 3 left untouched. -/
theorem C5_decoder (s : secamiz0r) (even odd : Row) (hw : 1 ≤ s.width)
    (i : ℕ) (hi : i < s.width) :
    (∀ j, clampWindowIdx s.width (i + j) < s.width) ∧
    (∀ j, i + j < s.width → clampWindowIdx s.width (i + j) = i + j) ∧
    (∀ j, s.width ≤ i + j → clampWindowIdx s.width (i + j) = s.width - 1) ∧
    (convert_pair_to_rgb s even odd).1 i = decodedEvenPix even odd s.width i ∧
    (convert_pair_to_rgb s even odd).2 i = decodedOddPix even odd s.width i ∧
    ((convert_pair_to_rgb s even odd).1 i).c0 ≤ 255 ∧
    ((convert_pair_to_rgb s even odd).1 i).c1 ≤ 255 ∧
    ((convert_pair_to_rgb s even odd).1 i).c2 ≤ 255 ∧
    ((convert_pair_to_rgb s even odd).2 i).c0 ≤ 255 ∧
    ((convert_pair_to_rgb s even odd).2 i).c1 ≤ 255 ∧
    ((convert_pair_to_rgb s even odd).2 i).c2 ≤ 255 ∧
    ((convert_pair_to_rgb s even odd).1 i).c3 = (even i).c3 ∧
    ((convert_pair_to_rgb s even odd).2 i).c3 = (odd i).c3 := by
  have hspec := (convert_fold_spec s even odd s.width le_rfl).1 i hi
  have h1 : (convert_pair_to_rgb s even odd).1 i = decodedEvenPix even odd s.width i := hspec.1
  have h2 : (convert_pair_to_rgb s even odd).2 i = decodedOddPix even odd s.width i := hspec.2
  refine ⟨?_, ?_, ?_, h1, h2, ?_, ?_, ?_, ?_, ?_, ?_, ?_, ?_⟩
  · intro j
    exact clampWindowIdx_lt s.width (i + j) hw
  · intro j hj
    unfold clampWindowIdx clamp_int
    split_ifs <;> omega
  · intro j hj
    unfold clampWindowIdx clamp_int
    split_ifs <;> omega
  · rw [h1]; exact clamp_byte_le _
  · rw [h1]; exact clamp_byte_le _
  · rw [h1]; exact clamp_byte_le _
  · rw [h2]; exact clamp_byte_le _
  · rw [h2]; exact clamp_byte_le _
  · rw [h2]; exact clamp_byte_le _
  · rw [h1]; rfl
  · rw [h2]; rfl

/-- Claim C5 witness: the decoder characterization at the constructed
2-wide instance (the single-block row pair the claim singles out),
all-zero rows and column 1. -/
theorem C5_witness :
    (∀ j, clampWindowIdx (f0r_construct 2 2).width (1 + j) < (f0r_construct 2 2).width) ∧
    (∀ j, 1 + j < (f0r_construct 2 2).width →
      clampWindowIdx (f0r_construct 2 2).width (1 + j) = 1 + j) ∧
    (∀ j, (f0r_construct 2 2).width ≤ 1 + j →
      clampWindowIdx (f0r_construct 2 2).width (1 + j) = (f0r_construct 2 2).width - 1) ∧
    (convert_pair_to_rgb (f0r_construct 2 2) zeroRow zeroRow).1 1 =
      decodedEvenPix zeroRow zeroRow (f0r_construct 2 2).width 1 ∧
    (convert_pair_to_rgb (f0r_construct 2 2) zeroRow zeroRow).2 1 =
      decodedOddPix zeroRow zeroRow (f0r_construct 2 2).width 1 ∧
    ((convert_pair_to_rgb (f0r_construct 2 2) zeroRow zeroRow).1 1).c0 ≤ 255 ∧
    ((convert_pair_to_rgb (f0r_construct 2 2) zeroRow zeroRow).1 1).c1 ≤ 255 ∧
    ((convert_pair_to_rgb (f0r_construct 2 2) zeroRow zeroRow).1 1).c2 ≤ 255 ∧
    ((convert_pair_to_rgb (f0r_construct 2 2) zeroRow zeroRow).2 1).c0 ≤ 255 ∧
    ((convert_pair_to_rgb (f0r_construct 2 2) zeroRow zeroRow).2 1).c1 ≤ 255 ∧
    ((convert_pair_to_rgb (f0r_construct 2 2) zeroRow zeroRow).2 1).c2 ≤ 255 ∧
    ((convert_pair_to_rgb (f0r_construct 2 2) zeroRow zeroRow).1 1).c3 = (zeroRow 1).c3 ∧
    ((convert_pair_to_rgb (f0r_construct 2 2) zeroRow zeroRow).2 1).c3 = (zeroRow 1).c3 :=
  C5_decoder (f0r_construct 2 2) zeroRow zeroRow (by decide) 1 (by decide)

/-- Reading inside the span written by `putRow`. -/
lemma putRow_in (buf : Frame) (start w : ℕ) (row : Row) (k : ℕ)
    (h : start ≤ k ∧ k < start + w) : putRow buf start w row k = row (k - start) := by
  unfold putRow
  rw [if_pos h]

/-- Reading outside the span written by `putRow`. -/
lemma putRow_out (buf : Frame) (start w : ℕ) (row : Row) (k : ℕ)
    (h : ¬ (start ≤ k ∧ k < start + w)) : putRow buf start w row k = buf k := by
  unfold putRow
  rw [if_neg h]

/-- The encoder writes the source alpha into channel 3 (even width). -/
lemma copy_c3_fst (s : secamiz0r) (de dd se so : Row) (j : ℕ)
    (hw : s.width % 2 = 0) (hj : j < s.width) :
    ((copy_pair_as_yuv s de dd se so).1 j).c3 = (se j).c3 := by
  rw [(copy_pair_spec s hw de dd se so j hj).1]
  rfl

/-- The encoder writes the source alpha into channel 3, odd row. -/
lemma copy_c3_snd (s : secamiz0r) (de dd se so : Row) (j : ℕ)
    (hw : s.width % 2 = 0) (hj : j < s.width) :
    ((copy_pair_as_yuv s de dd se so).2 j).c3 = (so j).c3 := by
  rw [(copy_pair_spec s hw de dd se so j hj).2]
  rfl

/-- The detector never writes channel 3 (even row). -/
lemma prefilter_c3_fst (s : secamiz0r) (rE rO : ℕ → ℤ) (a b : Row) (j : ℕ) :
    ((prefilter_pair s rE rO a b).1 j).c3 = (a j).c3 := by
  rw [(prefilter_pair_spec s rE rO a b j).1]
  exact (preMarked_channels s rE a (s.width - 1) j).2.2

/-- The detector never writes channel 3 (odd row). -/
lemma prefilter_c3_snd (s : secamiz0r) (rE rO : ℕ → ℤ) (a b : Row) (j : ℕ) :
    ((prefilter_pair s rE rO a b).2 j).c3 = (b j).c3 := by
  rw [(prefilter_pair_spec s rE rO a b j).2]
  exact (preMarked_channels s rO b (s.width - 1) j).2.2

/-- One filter iteration never writes channel 3. -/
lemma filterStep_c3 (s : secamiz0r) (rE rO : ℕ → ℤ) (st : FilSt) (i j : ℕ) :
    ((filterStep s rE rO st i).rowE j).c3 = (st.rowE j).c3 ∧
    ((filterStep s rE rO st i).rowO j).c3 = (st.rowO j).c3 := by
  simp only [filterStep]
  constructor <;> by_cases hj : j = i
  · subst hj
    rw [setPix_self]
  · rw [setPix_ne _ _ _ _ hj]
  · subst hj
    rw [setPix_self]
  · rw [setPix_ne _ _ _ _ hj]

/-- The filter loop never writes channel 3. -/
lemma filter_fold_c3 (s : secamiz0r) (rE rO : ℕ → ℤ) (l : List ℕ) :
    ∀ (st : FilSt) (j : ℕ),
      ((l.foldl (filterStep s rE rO) st).rowE j).c3 = (st.rowE j).c3 ∧
      ((l.foldl (filterStep s rE rO) st).rowO j).c3 = (st.rowO j).c3 := by
  induction l with
  | nil => exact fun st j => ⟨rfl, rfl⟩
  | cons a l ih =>
    intro st j
    rw [List.foldl_cons]
    obtain ⟨h1, h2⟩ := ih (filterStep s rE rO st a) j
    obtain ⟨g1, g2⟩ := filterStep_c3 s rE rO st a j
    exact ⟨h1.trans g1, h2.trans g2⟩

/-- The filter never writes channel 3 (even row). -/
lemma filter_c3_fst (s : secamiz0r) (rE rO : ℕ → ℤ) (a b : Row) (j : ℕ) :
    ((filter_pair s rE rO a b).1 j).c3 = (a j).c3 :=
  (filter_fold_c3 s rE rO (List.range s.width) ⟨0, 1, 0, 1, a, b⟩ j).1

/-- The filter never writes channel 3 (odd row). -/
lemma filter_c3_snd (s : secamiz0r) (rE rO : ℕ → ℤ) (a b : Row) (j : ℕ) :
    ((filter_pair s rE rO a b).2 j).c3 = (b j).c3 :=
  (filter_fold_c3 s rE rO (List.range s.width) ⟨0, 1, 0, 1, a, b⟩ j).2

/-- The decoder never writes channel 3 (even row). -/
lemma convert_c3_fst (s : secamiz0r) (a b : Row) (j : ℕ) :
    ((convert_pair_to_rgb s a b).1 j).c3 = (a j).c3 := by
  unfold convert_pair_to_rgb
  rcases lt_or_ge j s.width with hj | hj
  · rw [((convert_fold_spec s a b s.width le_rfl).1 j hj).1]
    rfl
  · rw [((convert_fold_spec s a b s.width le_rfl).2 j hj).1]

/-- The decoder never writes channel 3 (odd row). -/
lemma convert_c3_snd (s : secamiz0r) (a b : Row) (j : ℕ) :
    ((convert_pair_to_rgb s a b).2 j).c3 = (b j).c3 := by
  unfold convert_pair_to_rgb
  rcases lt_or_ge j s.width with hj | hj
  · rw [((convert_fold_spec s a b s.width le_rfl).1 j hj).2]
    rfl
  · rw [((convert_fold_spec s a b s.width le_rfl).2 j hj).2]

/-- One frame-loop iteration: inside the two written rows channel 3 comes
from the source; outside them the buffer is untouched. -/
lemma updatePair_c3 (s : secamiz0r) (rs : Streams) (src buf : Frame) (i idx : ℕ)
    (hw : s.width % 2 = 0) :
    (i * s.width ≤ idx ∧ idx < (i + 2) * s.width →
      ((updatePair s rs src buf i) idx).c3 = (src idx).c3) ∧
    (¬ (i * s.width ≤ idx ∧ idx < (i + 2) * s.width) →
      (updatePair s rs src buf i) idx = buf idx) := by
  have hs1 : (i + 1) * s.width = i * s.width + s.width := by ring
  have hs2 : (i + 2) * s.width = i * s.width + 2 * s.width := by ring
  constructor
  · rintro ⟨h1, h2⟩
    simp only [updatePair]
    by_cases hodd : (i + 1) * s.width ≤ idx ∧ idx < (i + 1) * s.width + s.width
    · rw [putRow_in _ _ _ _ _ hodd, convert_c3_snd, filter_c3_snd, prefilter_c3_snd,
        copy_c3_snd _ _ _ _ _ _ hw (by omega)]
      unfold getRow
      have hidx2 : (i + 1) * s.width + (idx - (i + 1) * s.width) = idx := by omega
      rw [hidx2]
    · rw [putRow_out _ _ _ _ _ hodd,
        putRow_in _ _ _ _ _ (by constructor <;> omega),
        convert_c3_fst, filter_c3_fst, prefilter_c3_fst,
        copy_c3_fst _ _ _ _ _ _ hw (by omega)]
      unfold getRow
      have hidx2 : i * s.width + (idx - i * s.width) = idx := by omega
      rw [hidx2]
  · intro h
    simp only [updatePair]
    rw [putRow_out _ _ _ _ _ (by omega), putRow_out _ _ _ _ _ (by omega)]

/-- Channel 3 across the whole frame loop: the processed leading rows
carry the source alpha, the rest still holds the initial destination
buffer. -/
lemma update_fold_c3 (s : secamiz0r) (rs : Streams) (src dst : Frame)
    (hw : s.width % 2 = 0) :
    ∀ n, ∀ idx,
      (idx < 2 * n * s.width →
        ((((List.range n).map (fun k => 2 * k)).foldl (updatePair s rs src) dst) idx).c3 =
          (src idx).c3) ∧
      (2 * n * s.width ≤ idx →
        (((List.range n).map (fun k => 2 * k)).foldl (updatePair s rs src) dst) idx =
          dst idx) := by
  intro n
  induction n with
  | zero =>
    intro idx
    exact ⟨fun h => absurd h (by omega), fun _ => rfl⟩
  | succ n ih =>
    intro idx
    rw [List.range_succ, List.map_append, List.foldl_append]
    simp only [List.map_cons, List.map_nil, List.foldl_cons, List.foldl_nil]
    set buf := ((List.range n).map (fun k => 2 * k)).foldl (updatePair s rs src) dst with hbuf
    have hpair := updatePair_c3 s rs src buf (2 * n) idx hw
    have hexp : (2 * n + 2) * s.width = 2 * n * s.width + 2 * s.width := by ring
    have hexp2 : 2 * (n + 1) * s.width = 2 * n * s.width + 2 * s.width := by ring
    constructor
    · intro h
      by_cases hin : 2 * n * s.width ≤ idx
      · exact hpair.1 ⟨hin, by omega⟩
      · rw [hpair.2 (by omega)]
        exact (ih idx).1 (by omega)
    · intro h
      rw [hpair.2 (by omega)]
      exact (ih idx).2 (by omega)

/-- Claim C6: for an even width and even height, and any source buffer,
destination buffer, parameter state and random streams, the frame
pipeline leaves channel 3 (alpha) of every destination pixel equal to the
corresponding source pixel's alpha: the encoder copies it and the
detector, filter and decoder never write it. -/
theorem C6_alpha (s : secamiz0r) (rs : Streams) (src dst : Frame)
    (hw : s.width % 2 = 0) (hh : s.height % 2 = 0) (idx : ℕ)
    (hidx : idx < s.width * s.height) :
    ((f0r_update s rs src dst).1 idx).c3 = (src idx).c3 := by
  show (((pairStarts s.height).foldl (updatePair s rs src) dst) idx).c3 = (src idx).c3
  unfold pairStarts
  have hn : (s.height + 1) / 2 = s.height / 2 := by omega
  rw [hn]
  apply (update_fold_c3 s rs src dst hw (s.height / 2) idx).1
  have h2 : 2 * (s.height / 2) = s.height := by omega
  rw [h2]
  have h3 : s.width * s.height = s.height * s.width := by ring
  omega

/-- Claim C6 witness: alpha preservation on the constructed 2-by-2
instance, the all-zero buffers and streams, at pixel 0. -/
theorem C6_witness :
    ((f0r_update (f0r_construct 2 2) zeroStreams zeroFrame zeroFrame).1 0).c3 =
      (zeroFrame 0).c3 :=
  C6_alpha (f0r_construct 2 2) zeroStreams zeroFrame zeroFrame
    (by decide) (by decide) 0 (by decide)

/-- Claim C2: the frame loop of `f0r_update` steps the row index by 2 with
the guard `i < height`, so for an odd height the last iteration starts at
row `height - 1` and the four stages also access row `height`, one past
the buffer: the last row is processed (not skipped) and the access at row
index `height` is out of bounds.  This refutes the claim that odd heights
leave the last row untouched with all accesses in bounds; the claim
describes the intent and the code is off on its loop guard. -/
theorem C2_odd_height_oob (h : ℕ) (hodd : h % 2 = 1) :
    (h - 1) ∈ pairStarts h ∧ h ∈ touchedRows h := by
  have hh : h = 2 * (h / 2) + 1 := by omega
  constructor
  · unfold pairStarts
    rw [List.mem_map]
    refine ⟨h / 2, ?_, by omega⟩
    rw [List.mem_range]
    omega
  · unfold touchedRows
    rw [List.mem_flatMap]
    refine ⟨h - 1, ?_, ?_⟩
    · unfold pairStarts
      rw [List.mem_map]
      refine ⟨h / 2, ?_, by omega⟩
      rw [List.mem_range]
      omega
    · simp only [List.mem_cons, List.mem_singleton]
      omega

/-- Claim C2 witness: at the failing input `height = 3` the loop starts an
iteration at row 2 and accesses row 3, which is out of bounds. -/
theorem C2_witness : (3 - 1) ∈ pairStarts 3 ∧ 3 ∈ touchedRows 3 :=
  C2_odd_height_oob 3 (by decide)

/-- Claim C10: for every odd width the encoder loop starts a block at
column `width - 1` and touches column `width` (one past the row) in both
source and both destination rows, while for every even width all four
stages keep their row accesses inside `[0, width)`. -/
theorem C10_access_bounds (w : ℕ) (echo : ℤ) :
    (w % 2 = 1 → (w - 1) ∈ blockStarts w ∧ w ∈ copyPairCols w) ∧
    (w % 2 = 0 → ∀ c,
      (c ∈ copyPairCols w ∨ c ∈ prefilterCols w ∨ c ∈ filterCols echo w ∨ c ∈ decoderCols w) →
      c < w) := by
  constructor
  · intro hodd
    have hmem : (w - 1) ∈ blockStarts w := by
      unfold blockStarts
      rw [List.mem_map]
      refine ⟨w / 2, ?_, by omega⟩
      rw [List.mem_range]
      omega
    refine ⟨hmem, ?_⟩
    unfold copyPairCols
    rw [List.mem_flatMap]
    refine ⟨w - 1, hmem, ?_⟩
    simp only [List.mem_cons, List.mem_singleton]
    omega
  · intro heven c hc
    rcases hc with hc | hc | hc | hc
    · unfold copyPairCols blockStarts at hc
      rw [List.mem_flatMap] at hc
      obtain ⟨i, hi, hci⟩ := hc
      rw [List.mem_map] at hi
      obtain ⟨k, hk, rfl⟩ := hi
      rw [List.mem_range] at hk
      have hck : c = 2 * k ∨ c = 2 * k + 1 := by simpa using hci
      omega
    · unfold prefilterCols at hc
      rw [List.mem_flatMap] at hc
      obtain ⟨i, hi, hci⟩ := hc
      rw [List.mem_range'_1] at hi
      have hck : c = i - 1 ∨ c = i := by simpa using hci
      omega
    · unfold filterCols at hc
      rw [List.mem_flatMap] at hc
      obtain ⟨i, hi, hci⟩ := hc
      rw [List.mem_range] at hi
      split_ifs at hci
      · have hck : c = i - echo.toNat ∨ c = i := by simpa using hci
        omega
      · have hck : c = i := by simpa using hci
        omega
    · unfold decoderCols at hc
      rw [List.mem_flatMap] at hc
      obtain ⟨i, hi, hci⟩ := hc
      rw [List.mem_range] at hi
      rw [List.mem_append] at hci
      rcases hci with hci | hci
      · rw [List.mem_map] at hci
        obtain ⟨j, _, rfl⟩ := hci
        exact clampWindowIdx_lt w (i + j) (by omega)
      · have hck : c = i := by simpa using hci
        omega

/-- Claim C10 witness: at width 3 (odd) the encoder starts a block at
column 2 and touches column 3; at width 4 (even) all four stages stay
inside `[0, 4)`. -/
theorem C10_witness :
    ((3 - 1) ∈ blockStarts 3 ∧ 3 ∈ copyPairCols 3) ∧
    (∀ c,
      (c ∈ copyPairCols 4 ∨ c ∈ prefilterCols 4 ∨ c ∈ filterCols 2 4 ∨ c ∈ decoderCols 4) →
      c < 4) :=
  ⟨(C10_access_bounds 3 2).1 (by decide), (C10_access_bounds 4 2).2 (by decide)⟩

/-- Claim C7 counterexample: at fire intensity `x = 3/64` the C setter
(which truncates toward zero) stores `fire_threshold = 1024`, while the
claimed formula `1024 - round(x² · 256) = 1024 - round(9/16) = 1023`
disagrees. -/
theorem C7_counterexample :
    (set_fire_intensity (f0r_construct 4 4) (3/64)).fire_threshold ≠
      1024 - round ((3/64 : ℚ) * (3/64) * 256) := by
  have hl : (set_fire_intensity (f0r_construct 4 4) (3/64)).fire_threshold = 1024 := by
    show 1024 - cTrunc ((3/64 : ℚ) * (3/64) * 256) = 1024
    unfold cTrunc
    rw [if_pos (by norm_num)]
    norm_num
  have hr : round ((3/64 : ℚ) * (3/64) * 256) = 1 := by
    rw [round_eq]
    norm_num
  rw [hl, hr]
  norm_num

/-- Claim C7 (amended): after `set_fire_intensity x` the instance satisfies
`fire_threshold = 1024 - trunc(x² · 256)` and `fire_seed = trunc(x · 1024)`
where `trunc` truncates toward zero (the semantics of the C cast, not
rounding to nearest), and for `0 ≤ x ≤ y` a lower fire intensity yields a
higher (or equal) fire threshold. -/
theorem C7_fire_setter (s : secamiz0r) (x y : ℚ) (hx : 0 ≤ x) (hxy : x ≤ y) :
    (set_fire_intensity s x).fire_threshold = 1024 - cTrunc (x * x * 256) ∧
    (set_fire_intensity s x).fire_seed = cTrunc (x * 1024) ∧
    (set_fire_intensity s y).fire_threshold ≤ (set_fire_intensity s x).fire_threshold := by
  refine ⟨rfl, rfl, ?_⟩
  show 1024 - cTrunc (y * y * 256) ≤ 1024 - cTrunc (x * x * 256)
  have h : cTrunc (x * x * 256) ≤ cTrunc (y * y * 256) := by
    apply cTrunc_mono_nonneg (by positivity)
    have hy : 0 ≤ y := hx.trans hxy
    nlinarith
  omega

/-- Claim C7 witness: the amended statement applied at `x = 0`, `y = 1`. -/
theorem C7_witness :
    (set_fire_intensity (f0r_construct 4 4) 0).fire_threshold = 1024 - cTrunc (0 * 0 * 256) ∧
    (set_fire_intensity (f0r_construct 4 4) 0).fire_seed = cTrunc (0 * 1024) ∧
    (set_fire_intensity (f0r_construct 4 4) 1).fire_threshold ≤
      (set_fire_intensity (f0r_construct 4 4) 0).fire_threshold :=
  C7_fire_setter (f0r_construct 4 4) 0 1 le_rfl zero_le_one

/-- Claim C8: the three fields derived from the noise intensity are
monotonically non-decreasing in the parameter on `[0, 1]`. -/
theorem C8_noise_monotone (s : secamiz0r) (x y : ℚ)
    (hx : 0 ≤ x) (hxy : x ≤ y) (hy : y ≤ 1) :
    (set_noise_intensity s x).luma_noise ≤ (set_noise_intensity s y).luma_noise ∧
    (set_noise_intensity s x).chroma_noise ≤ (set_noise_intensity s y).chroma_noise ∧
    (set_noise_intensity s x).echo_offset ≤ (set_noise_intensity s y).echo_offset := by
  have hy0 : 0 ≤ y := hx.trans hxy
  refine ⟨?_, ?_, ?_⟩
  · apply clamp_int_mono _ _ (by norm_num)
    apply cTrunc_mono_nonneg (by positivity)
    nlinarith
  · apply clamp_int_mono _ _ (by norm_num)
    apply cTrunc_mono_nonneg (by positivity)
    nlinarith
  · apply clamp_int_mono _ _ (by norm_num)
    apply cTrunc_mono_nonneg (by positivity)
    nlinarith

/-- Claim C8 witness: monotonicity applied at `x = 0`, `y = 1`. -/
theorem C8_witness :
    (set_noise_intensity (f0r_construct 4 4) 0).luma_noise ≤
      (set_noise_intensity (f0r_construct 4 4) 1).luma_noise ∧
    (set_noise_intensity (f0r_construct 4 4) 0).chroma_noise ≤
      (set_noise_intensity (f0r_construct 4 4) 1).chroma_noise ∧
    (set_noise_intensity (f0r_construct 4 4) 0).echo_offset ≤
      (set_noise_intensity (f0r_construct 4 4) 1).echo_offset :=
  C8_noise_monotone (f0r_construct 4 4) 0 1 le_rfl zero_le_one le_rfl

/-- Claim C9 counterexample: the freshly constructed instance is reachable
and has `echo_offset = 2`, so at column `i = 0` the echo branch guard
`echo_offset >= 1 && i >= echo_offset` of `filter_pair` is false: the echo
branch does not execute on every pixel. -/
theorem C9_counterexample :
    Reachable (f0r_construct 4 4) ∧ ¬ echoGuard (f0r_construct 4 4) 0 := by
  refine ⟨Reachable.construct 4 4, ?_⟩
  have h2 : (f0r_construct 4 4).echo_offset = 2 := by
    show clamp_int (cTrunc ((0.125 : ℚ) * 8)) 2 16 = 2
    have h1 : cTrunc ((0.125 : ℚ) * 8) = 1 := by
      unfold cTrunc
      rw [if_pos (by norm_num)]
      norm_num
    rw [h1]
    rfl
  rintro ⟨-, hle⟩
  rw [h2] at hle
  norm_num at hle

/-- Claim C9 (amended): every state reachable through construction and
parameter setters satisfies `16 ≤ luma_noise ≤ 224`, `32 ≤ chroma_noise ≤ 256`
and `2 ≤ echo_offset ≤ 16`; hence the luma-noise and chroma-noise guards of
`filter_pair` hold at every pixel, while the echo guard holds at column `i`
exactly when `echo_offset ≤ i` (so never at columns 0 and 1). -/
theorem C9_invariants (s : secamiz0r) (h : Reachable s) (i : ℕ) :
    (16 ≤ s.luma_noise ∧ s.luma_noise ≤ 224) ∧
    (32 ≤ s.chroma_noise ∧ s.chroma_noise ≤ 256) ∧
    (2 ≤ s.echo_offset ∧ s.echo_offset ≤ 16) ∧
    lumaNoiseGuard s ∧ chromaNoiseGuard s ∧
    (echoGuard s i ↔ s.echo_offset ≤ (i : ℤ)) := by
  obtain ⟨hl, hc, he⟩ := reachable_noise_bounds s h
  refine ⟨hl, hc, he, by unfold lumaNoiseGuard; omega, by unfold chromaNoiseGuard; omega, ?_⟩
  unfold echoGuard
  constructor
  · exact fun hg => hg.2
  · exact fun hi => ⟨by omega, hi⟩

/-- Claim C9 witness: the amended statement applied to the constructed
instance at column 0. -/
theorem C9_witness :
    (16 ≤ (f0r_construct 4 4).luma_noise ∧ (f0r_construct 4 4).luma_noise ≤ 224) ∧
    (32 ≤ (f0r_construct 4 4).chroma_noise ∧ (f0r_construct 4 4).chroma_noise ≤ 256) ∧
    (2 ≤ (f0r_construct 4 4).echo_offset ∧ (f0r_construct 4 4).echo_offset ≤ 16) ∧
    lumaNoiseGuard (f0r_construct 4 4) ∧ chromaNoiseGuard (f0r_construct 4 4) ∧
    (echoGuard (f0r_construct 4 4) 0 ↔ (f0r_construct 4 4).echo_offset ≤ (0 : ℤ)) :=
  C9_invariants (f0r_construct 4 4) (Reachable.construct 4 4) 0

/-- Unfolding `oscAfter` at 0. -/
lemma oscAfter_zero (s : secamiz0r) (r : ℕ → ℤ) (row : Row) :
    oscAfter s r row 0 = if s.fire_seed = 0 then 0 else umod (r 0) s.fire_seed := rfl

/-- Unfolding `oscAfter` at a successor. -/
lemma oscAfter_succ (s : secamiz0r) (r : ℕ → ℤ) (row : Row) (i : ℕ) :
    oscAfter s r row (i + 1) = (oscAfter s r row i +
      |((row (i + 1)).c0 : ℤ) - ((row i).c0 : ℤ) - umod (r i) 512|).tdiv 2 := rfl

/-- Reading the all-zero frame as a row. -/
lemma getRow_zeroFrame (k : ℕ) : getRow zeroFrame k = zeroRow := rfl

/-- The encoder turns a black pixel into luma 16 and centred chroma 128
(even row). -/
lemma encodedEvenPix_zeroRow (j : ℕ) : encodedEvenPix zeroRow j = ⟨16, 128, 0, 0⟩ := by
  unfold encodedEvenPix zeroRow zeroPix unpack_rgb avg_rgb y_from_rgb v_from_rgb
  norm_num [cTrunc, Pix.mk.injEq]
  exact ⟨rfl, rfl⟩

/-- The encoder turns a black pixel into luma 16 and centred chroma 128
(odd row). -/
lemma encodedOddPix_zeroRow (j : ℕ) : encodedOddPix zeroRow j = ⟨16, 128, 0, 0⟩ := by
  unfold encodedOddPix zeroRow zeroPix unpack_rgb avg_rgb y_from_rgb u_from_rgb
  norm_num [cTrunc, Pix.mk.injEq]
  exact ⟨rfl, rfl⟩

/-- With a zero fire seed and a row whose luma is constantly 16 below the
width, the detector accumulator never exceeds 511 after halving. -/
lemma osc_bound_flat (s : secamiz0r) (hseed : s.fire_seed = 0) (r : ℕ → ℤ) (e : Row)
    (he : ∀ j, j < s.width → (e j).c0 = 16) :
    ∀ i, i ≤ s.width - 1 → 0 ≤ oscAfter s r e i ∧ oscAfter s r e i ≤ 511 := by
  intro i
  induction i with
  | zero =>
    intro _
    rw [oscAfter_zero, if_pos hseed]
    norm_num
  | succ i ih =>
    intro hi
    have hb := ih (by omega)
    have hu := umod_bounds (r i) 512 (by norm_num)
    have hdiff : ((e (i + 1)).c0 : ℤ) - ((e i).c0 : ℤ) - umod (r i) 512 =
        -(umod (r i) 512) := by
      rw [he (i + 1) (by omega), he i (by omega)]
      push_cast
      ring
    rw [oscAfter_succ, hdiff, abs_neg, abs_of_nonneg hu.1,
      Int.tdiv_eq_ediv (by omega) (by norm_num)]
    omega

/-- With fire intensity zero (threshold 1024, seed 0) the detector writes
nothing on rows of constant luma 16: the accumulator peak stays at 1022
at most, below the threshold, for every random stream. -/
lemma prefilter_identity (s : secamiz0r) (hthr : s.fire_threshold = 1024)
    (hseed : s.fire_seed = 0) (rE rO : ℕ → ℤ) (e o : Row)
    (he : ∀ j, j < s.width → (e j).c0 = 16) (ho : ∀ j, j < s.width → (o j).c0 = 16) :
    prefilter_pair s rE rO e o = (e, o) := by
  have hkey : ∀ (r : ℕ → ℤ) (row : Row), (∀ j, j < s.width → (row j).c0 = 16) →
      ∀ j, preMarked s r row (s.width - 1) j = row j := by
    intro r row hrow j
    unfold preMarked
    rw [if_neg]
    rintro ⟨h1, h2, h3⟩
    have hb := osc_bound_flat s hseed r row hrow (j - 1) (by omega)
    have hu := umod_bounds (r (j - 1)) 512 (by norm_num)
    have hdiff : ((row (j - 1 + 1)).c0 : ℤ) - ((row (j - 1)).c0 : ℤ) - umod (r (j - 1)) 512 =
        -(umod (r (j - 1)) 512) := by
      rw [hrow (j - 1 + 1) (by omega), hrow (j - 1) (by omega)]
      push_cast
      ring
    have hpeak : oscPeak s r row (j - 1) ≤ 1022 := by
      unfold oscPeak
      rw [hdiff, abs_neg, abs_of_nonneg hu.1]
      omega
    rw [hthr] at h3
    omega
  have h1 : (prefilter_pair s rE rO e o).1 = e := by
    funext j
    rw [(prefilter_pair_spec s rE rO e o j).1, hkey rE e he j]
  have h2 : (prefilter_pair s rE rO e o).2 = o := by
    funext j
    rw [(prefilter_pair_spec s rE rO e o j).2, hkey rO o ho j]
  exact Prod.ext h1 h2

/-- On the all-zero source, with threshold 1024 and seed 0, one frame-loop
iteration depends only on the filter-stage streams: the encoder draws no
randomness and the detector marks nothing. -/
lemma updatePair_zero_src (s : secamiz0r) (hw : s.width % 2 = 0)
    (hthr : s.fire_threshold = 1024) (hseed : s.fire_seed = 0)
    (rsA rsB : Streams) (hfE : rsA.filE = rsB.filE) (hfO : rsA.filO = rsB.filO) :
    updatePair s rsA zeroFrame = updatePair s rsB zeroFrame := by
  funext buf i
  simp only [updatePair]
  have hencE : ∀ j, j < s.width →
      ((copy_pair_as_yuv s (getRow buf (i * s.width)) (getRow buf ((i + 1) * s.width))
        (getRow zeroFrame (i * s.width)) (getRow zeroFrame ((i + 1) * s.width))).1 j).c0 =
        16 := by
    intro j hj
    rw [(copy_pair_spec s hw _ _ _ _ j hj).1, getRow_zeroFrame, encodedEvenPix_zeroRow j]
  have hencO : ∀ j, j < s.width →
      ((copy_pair_as_yuv s (getRow buf (i * s.width)) (getRow buf ((i + 1) * s.width))
        (getRow zeroFrame (i * s.width)) (getRow zeroFrame ((i + 1) * s.width))).2 j).c0 =
        16 := by
    intro j hj
    rw [(copy_pair_spec s hw _ _ _ _ j hj).2, getRow_zeroFrame, encodedOddPix_zeroRow j]
  rw [prefilter_identity s hthr hseed (rsA.preE i) (rsA.preO i) _ _ hencE hencO,
    prefilter_identity s hthr hseed (rsB.preE i) (rsB.preO i) _ _ hencE hencO,
    hfE, hfO]

/-- Claim C1 counterexample: on the 2-by-2 frame with both intensities set
to 0 and the all-zero source, two runs that differ only in the random
values drawn (all-zero draws versus draws of 8 in the filter stage's
even-row stream) produce different red bytes at pixel 0 (0 versus 23):
the output is not independent of the pseudo-random stream, because the
noise clamps keep `luma_noise = 16` and `chroma_noise = 32` even at noise
intensity 0. -/
theorem C1_counterexample :
    ((f0r_update c1State zeroStreams zeroFrame zeroFrame).1 0).c0 ≠
      ((f0r_update c1State c1StreamsB zeroFrame zeroFrame).1 0).c0 := by
  have hr0 : List.range 1 = [0] := rfl
  have hr1 : List.range' 1 1 = [1] := rfl
  have hr2 : List.range 2 = [0, 1] := rfl
  have hr4 : List.range 4 = [0, 1, 2, 3] := rfl
  have hr8 : List.range 8 = [0, 1, 2, 3, 4, 5, 6, 7] := rfl
  have ht1 : (0:ℤ).tmod 512 = 0 := by decide
  have ht2 : (0:ℤ).tmod 16 = 0 := by decide
  have ht3 : (0:ℤ).tmod 32 = 0 := by decide
  have ht4 : (0:ℤ).tdiv 2 = 0 := by decide
  have ht5 : (512:ℤ).tmod 512 = 0 := by decide
  have ht6 : (16:ℤ).tmod 16 = 0 := by decide
  have ht7 : (32:ℤ).tmod 32 = 0 := by decide
  have ht8 : (8:ℤ).tmod 16 = 8 := by decide
  have ht9 : (8:ℤ).tmod 32 = 8 := by decide
  have htn1 : (16:ℤ).toNat = 16 := rfl
  have htn2 : (128:ℤ).toNat = 128 := rfl
  have htn3 : (24:ℤ).toNat = 24 := rfl
  have htn4 : (136:ℤ).toNat = 136 := rfl
  have htn5 : (23:ℤ).toNat = 23 := rfl
  have hA : ((f0r_update c1State zeroStreams zeroFrame zeroFrame).1 0).c0 = 0 := by
    norm_num [f0r_update, pairStarts, updatePair, copy_pair_as_yuv, blockStarts, encodeBlock,
      unpack_rgb, avg_rgb, y_from_rgb, u_from_rgb, v_from_rgb, prefilter_pair, prefilterStep,
      umod, filter_pair, filterStep, fire_fade, convert_pair_to_rgb, convertStep, clampWindowIdx,
      luma_loss, chroma_loss, rgb_from_yuv, clamp_byte, clamp_int, cTrunc, setPix, getRow, putRow,
      zeroFrame, zeroRow, zeroPix, zeroStreams, c1State, set_noise_intensity, set_fire_intensity,
      f0r_construct, echoGuard, hr0, hr1, hr2, hr4, hr8, ht1, ht2, ht3, ht4, ht5, ht6, ht7,
      htn1, htn2]
  have hB : ((f0r_update c1State c1StreamsB zeroFrame zeroFrame).1 0).c0 = 23 := by
    norm_num [f0r_update, pairStarts, updatePair, copy_pair_as_yuv, blockStarts, encodeBlock,
      unpack_rgb, avg_rgb, y_from_rgb, u_from_rgb, v_from_rgb, prefilter_pair, prefilterStep,
      umod, filter_pair, filterStep, fire_fade, convert_pair_to_rgb, convertStep, clampWindowIdx,
      luma_loss, chroma_loss, rgb_from_yuv, clamp_byte, clamp_int, cTrunc, setPix, getRow, putRow,
      zeroFrame, zeroRow, zeroPix, zeroStreams, c1StreamsB, c1State, set_noise_intensity,
      set_fire_intensity, f0r_construct, echoGuard, hr0, hr1, hr2, hr4, hr8, ht1, ht2, ht3, ht4,
      ht5, ht6, ht7, ht8, ht9, htn1, htn2, htn3, htn4, htn5]
  rw [hA, hB]
  norm_num

/-- Claim C1 (amended): for every frame with even width and even height
and the all-zero source, with both intensities set to 0, the output of
`f0r_update` depends only on the random values drawn by the filter stage:
any two runs that agree on the filter-stage draws (and may differ in the
detector-stage draws) produce identical output, because the zero fire
intensity gives threshold 1024 and seed 0 and so disables sparks.  Full
stream-independence fails (see the counterexample): the noise clamps keep
the filter stage's noise enabled even at noise intensity 0. -/
theorem C1_zero_intensity_amended (w h : ℕ) (hw : w % 2 = 0) (hh : h % 2 = 0)
    (rsA rsB : Streams) (hfE : rsA.filE = rsB.filE) (hfO : rsA.filO = rsB.filO)
    (dst : Frame) :
    f0r_update (set_noise_intensity (set_fire_intensity (f0r_construct w h) 0) 0)
      rsA zeroFrame dst =
    f0r_update (set_noise_intensity (set_fire_intensity (f0r_construct w h) 0) 0)
      rsB zeroFrame dst := by
  have hthr : (set_noise_intensity (set_fire_intensity (f0r_construct w h) 0) 0).fire_threshold
      = 1024 := by
    show 1024 - cTrunc ((0 : ℚ) * 0 * 256) = 1024
    norm_num [cTrunc]
  have hseed : (set_noise_intensity (set_fire_intensity (f0r_construct w h) 0) 0).fire_seed
      = 0 := by
    show cTrunc ((0 : ℚ) * 1024) = 0
    norm_num [cTrunc]
  unfold f0r_update
  rw [updatePair_zero_src _ hw hthr hseed rsA rsB hfE hfO]

/-- Claim C1 witness: the amended statement applied on the 2-by-2 frame to
the all-zero streams and to streams whose detector draws are 7 but whose
filter draws agree with the all-zero streams. -/
theorem C1_witness :
    f0r_update (set_noise_intensity (set_fire_intensity (f0r_construct 2 2) 0) 0)
      zeroStreams zeroFrame zeroFrame =
    f0r_update (set_noise_intensity (set_fire_intensity (f0r_construct 2 2) 0) 0)
      c1StreamsC zeroFrame zeroFrame :=
  C1_zero_intensity_amended 2 2 (by decide) (by decide) zeroStreams c1StreamsC rfl rfl zeroFrame

end Secamiz0r
